import Mathlib

/-!
Shallow embedding of the asset-serving handlers of origin-web-console-server
(pkg/assets/handlers.go and the wiring in pkg/assets/apiserver/asset_apiserver.go).

Go strings are modelled as Lean `String`; Go byte slices as `List Nat`
(each element < 256); an `http.Header` as an ordered association list
`List (String × String)` whose keys are already in canonical MIME form
(`Header.Get` returns the first value stored under the key, or "").
The `AssetFunc` collaborator `func(path string) ([]byte, error)` is modelled
as `String → Except ε (List Nat)` with an abstract error type ε.
-/

namespace Assets

/-- Go `strings.HasPrefix` / `bytes.HasPrefix`: `listIsPfx pat l` is true iff
`pat` is a prefix of `l`. -/
def listIsPfx {α : Type} [BEq α] : List α → List α → Bool
  | [], _ => true
  | _ :: _, [] => false
  | a :: as, b :: bs => a == b && listIsPfx as bs

/-- Substring search over rune lists, the meaning of Go `strings.Contains`. -/
def listHasSub (pat : List Char) : List Char → Bool
  | [] => pat.isEmpty
  | c :: rest => listIsPfx pat (c :: rest) || listHasSub pat rest

/-- Go `strings.Contains(s, pat)`. -/
def strContains (s pat : String) : Bool := listHasSub pat.data s.data

/-- Go `strings.HasPrefix(s, pat)`. -/
def strHasPfx (s pat : String) : Bool := listIsPfx pat.data s.data

/-- Go `strings.HasSuffix(s, pat)`. -/
def strHasSuffix (s pat : String) : Bool := listIsPfx pat.data.reverse s.data.reverse

/-- Go `strings.TrimPrefix(path, "/")`: drops one leading slash if present
(the per-request path normalization of HTML5ModeHandler). -/
def stripSlash (s : String) : String := if strHasPfx s "/" then s.drop 1 else s

/-- An `http.Request`: URL path plus header (keys in canonical MIME form). -/
structure Request where
  path : String
  header : List (String × String)
deriving DecidableEq

/-- Go `http.Header.Get`: first value stored under a key, or "". -/
def headerGet (h : List (String × String)) (k : String) : String :=
  match h with
  | [] => ""
  | (k', v) :: rest => if k' = k then v else headerGet rest k

/-- Go `http.Header.Set`: replace all values stored under a key. -/
def setHeader (h : List (String × String)) (k v : String) : List (String × String) :=
  (k, v) :: h.filter (fun p => p.1 != k)

/-- Lowercase hex digits of Go `encoding/hex` ("0123456789abcdef"). -/
def hexDigit (n : Nat) : Char :=
  if n < 10 then Char.ofNat (48 + n) else Char.ofNat (87 + n)

/-- Character stream of `hex.EncodeToString`: two lowercase digits per byte. -/
def hexChars : List Nat → List Char
  | [] => []
  | b :: bs => hexDigit (b / 16) :: hexDigit (b % 16) :: hexChars bs

/-- Go `hex.EncodeToString`. -/
def hexEncode (bs : List Nat) : String := ⟨hexChars bs⟩

/-- UTF-8 encoding of one rune, written in arithmetic form
(Go `[]byte(string)` conversion encodes runes this way). -/
def utf8Bytes (c : Char) : List Nat :=
  let n := c.toNat
  if n < 128 then [n]
  else if n < 2048 then [192 + n / 64, 128 + n % 64]
  else if n < 65536 then [224 + n / 4096, 128 + (n / 64) % 64, 128 + n % 64]
  else [240 + n / 262144, 128 + (n / 4096) % 64, 128 + (n / 64) % 64, 128 + n % 64]

def utf8Chars : List Char → List Nat
  | [] => []
  | c :: cs => utf8Bytes c ++ utf8Chars cs

/-- Go `[]byte(s)`: the UTF-8 bytes of a string. -/
def strBytes (s : String) : List Nat := utf8Chars s.data

/-- Embeds `generateEtag` (handlers.go): concatenate the request's values for
the vary headers in order and format `W/"<version>_<hex>"`. -/
def generateEtag (r : Request) (version : String) (varyHeaders : List String) : String :=
  let varyHeaderValues := varyHeaders.foldl (fun acc h => acc ++ headerGet r.header h) ""
  "W/\"" ++ version ++ "_" ++ hexEncode (strBytes varyHeaderValues) ++ "\""

/-- RE2 character class `\s` (the Perl space class: tab, newline, form feed,
carriage return, space). -/
def isSpaceRE (c : Char) : Bool :=
  c == ' ' || c == '\t' || c == '\n' || c == '\x0c' || c == '\r'

def splitOn (sep : Char) : List Char → List Char → List (List Char)
  | [], acc => [acc.reverse]
  | c :: rest, acc =>
    if c = sep then acc.reverse :: splitOn sep rest [] else splitOn sep rest (c :: acc)

def trimLeftWS (l : List Char) : List Char := l.dropWhile isSpaceRE

def trimRightWS (l : List Char) : List Char := (l.reverse.dropWhile isSpaceRE).reverse

def trimMid : List (List Char) → List String
  | [] => []
  | [p] => [⟨trimLeftWS p⟩]
  | p :: rest => ⟨trimLeftWS (trimRightWS p)⟩ :: trimMid rest

/-- `regexp.MustCompile("\\s*,\\s*").Split(s, -1)` (handlers.go `varyHeaderRegexp`):
each comma, together with the whitespace runs immediately around it, is a
separator; whitespace not adjacent to a comma is kept. -/
def varySplit (s : String) : List String :=
  match splitOn ',' s.data [] with
  | [] => []
  | [p] => [⟨p⟩]
  | p :: rest => ⟨trimRightWS p⟩ :: trimMid rest

/-- One step of Go `path.Clean`: process the slash-separated segments against
a stack of output segments (`..` pops inside a rooted path, accumulates
otherwise; empty and `.` segments vanish). -/
def cleanSegs (rooted : Bool) : List (List Char) → List (List Char) → List (List Char)
  | [], stack => stack.reverse
  | s :: rest, stack =>
    if s = [] ∨ s = ['.'] then cleanSegs rooted rest stack
    else if s = ['.', '.'] then
      match stack with
      | t :: ts => if t = ['.', '.'] then cleanSegs rooted rest (s :: t :: ts)
                   else cleanSegs rooted rest ts
      | [] => if rooted then cleanSegs rooted rest []
              else cleanSegs rooted rest [['.', '.']]
    else cleanSegs rooted rest (s :: stack)

def joinSegs : List (List Char) → List Char
  | [] => []
  | [s] => s
  | s :: rest => s ++ '/' :: joinSegs rest

/-- Go `path.Clean` (lexical path cleaning), in segment form. -/
def pathClean (p : String) : String :=
  if p = "" then "." else
  let rooted := strHasPfx p "/"
  let out := joinSegs (cleanSegs rooted (splitOn '/' p.data []) [])
  if rooted then ⟨'/' :: out⟩
  else if out = [] then "." else ⟨out⟩

/-- Go `path.Join(a, b)`: drop leading empty elements, join with "/", Clean. -/
def pathJoin (a b : String) : String :=
  if a = "" then (if b = "" then "" else pathClean b)
  else pathClean (a ++ "/" ++ b)

/-- Go `bytes.Replace(l, pat, rep, 1)`: replace the first occurrence of `pat`
(an empty `pat` inserts `rep` at the front). -/
def replace1 (pat rep : List Nat) : List Nat → List Nat
  | [] => if listIsPfx pat [] then rep else []
  | c :: rest =>
    if listIsPfx pat (c :: rest) then rep ++ (c :: rest).drop pat.length
    else c :: replace1 pat rep rest

/-- Go `html.EscapeString` on one rune. -/
def escapeChar (c : Char) : String :=
  if c = '&' then "&amp;"
  else if c = '\'' then "&#39;"
  else if c = '<' then "&lt;"
  else if c = '>' then "&gt;"
  else if c = '"' then "&#34;"
  else String.singleton c

/-- Go `html.EscapeString`. -/
def htmlEscape (s : String) : String := String.join (s.data.map escapeChar)

/-- One `<script src="...">` tag line of `addExtensionScripts`. -/
def scriptTag (u : String) : String :=
  "<script src=\"" ++ htmlEscape u ++ "\"></script>\n"

/-- One `<link rel="stylesheet">` tag line of `addExtensionStylesheets`. -/
def styleTag (u : String) : String :=
  "<link rel=\"stylesheet\" href=\"" ++ htmlEscape u ++ "\">\n"

/-- Embeds `addExtensionScripts` (handlers.go): replace the first `</body>`
with the escaped script tags (in input order) followed by `</body>`. -/
def addExtensionScripts (content : List Nat) (extensionScripts : List String) : List Nat :=
  replace1 (strBytes "</body>")
    (strBytes (String.join (extensionScripts.map scriptTag)) ++ strBytes "</body>") content

/-- Embeds `addExtensionStylesheets` (handlers.go): replace the first `</head>`
with the escaped link tags (in input order) followed by `</head>`. -/
def addExtensionStylesheets (content : List Nat) (extensionStylesheets : List String) : List Nat :=
  replace1 (strBytes "</head>")
    (strBytes (String.join (extensionStylesheets.map styleTag)) ++ strBytes "</head>") content

/-- The per-subcontext construction step of `HTML5ModeHandler`: join the context
root with the subcontext key (guaranteeing one trailing slash), rewrite the
base-href marker, and inject extension resources only for the root subcontext. -/
def deriveDoc (contextRoot sub : String) (extensionScripts extensionStylesheets : List String)
    (raw : List Nat) : List Nat :=
  let base0 := pathJoin contextRoot sub
  let base := if strHasSuffix base0 "/" then base0 else base0 ++ "/"
  let b := replace1 (strBytes "<base href=\"/\">")
    (strBytes ("<base href=\"" ++ base ++ "\">")) raw
  if sub.length = 0 then
    let b1 := if extensionScripts.length > 0 then addExtensionScripts b extensionScripts else b
    if extensionStylesheets.length > 0 then addExtensionStylesheets b1 extensionStylesheets else b1
  else b

/-- The ordering used by `sort.Sort(LongestToShortest(subcontexts))`:
longer keys first. -/
def lenGE (a b : String) : Prop := b.length ≤ a.length

instance : DecidableRel lenGE := fun a b => Nat.decLe b.length a.length

instance : IsTotal String lenGE := ⟨fun a b => Or.symm (Nat.le_total a.length b.length)⟩

instance : IsTrans String lenGE := ⟨fun _ _ _ h1 h2 => Nat.le_trans h2 h1⟩

/-- `sort.Sort(LongestToShortest(subcontexts))`: a length-non-increasing
permutation of the keys. -/
def sortSubs (l : List String) : List String := List.insertionSort lenGE l

/-- The state `HTML5ModeHandler` captures in its closure: the derived index
buffer per subcontext and the decreasing-length-sorted key list. -/
structure H5State where
  subcontextData : List (String × List Nat)
  subcontexts : List String
deriving DecidableEq

/-- Construction loop body of `HTML5ModeHandler`: resolve every subcontext's
index document and derive its buffer; any lookup error aborts construction. -/
def buildEntries {ε : Type} (contextRoot : String)
    (extensionScripts extensionStylesheets : List String)
    (getAsset : String → Except ε (List Nat)) :
    List (String × String) → Except ε (List (String × List Nat))
  | [] => .ok []
  | (sub, index) :: rest => do
    let b ← getAsset index
    let restData ← buildEntries contextRoot extensionScripts extensionStylesheets getAsset rest
    .ok ((sub, deriveDoc contextRoot sub extensionScripts extensionStylesheets b) :: restData)

/-- Embeds the constructor `HTML5ModeHandler` (handlers.go): build all derived
buffers (propagating any asset-lookup error) and sort the keys longest-first. -/
def buildH5 {ε : Type} (contextRoot : String) (subcontextMap : List (String × String))
    (extensionScripts extensionStylesheets : List String)
    (getAsset : String → Except ε (List Nat)) : Except ε H5State :=
  (buildEntries contextRoot extensionScripts extensionStylesheets getAsset subcontextMap).map
    (fun data => ⟨data, sortSubs (data.map (·.1))⟩)

/-- Map access `subcontextData[subcontext]` (present for every key produced by
construction). -/
def lookupData (data : List (String × List Nat)) (sub : String) : List Nat :=
  match data with
  | [] => []
  | (k, v) :: rest => if k = sub then v else lookupData rest sub

/-- The fallback test of the per-request loop: `urlPath == subcontext ||
strings.HasPrefix(urlPath, prefix)` where the probe is `subcontext + "/"` for a
non-empty subcontext and `subcontext` itself otherwise. -/
def matchSub (urlPath sub : String) : Bool :=
  let pfx := if sub ≠ "" then sub ++ "/" else sub
  urlPath == sub || strHasPfx urlPath pfx

/-- The `for _, subcontext := range subcontexts` loop: first key that matches. -/
def findMatch : List String → String → Option String
  | [], _ => none
  | sub :: rest, p => if matchSub p sub then some sub else findMatch rest p

/-- Observable outcome of one `ServeHTTP` call of the HTML5-mode handler:
status code, response headers in write order (on top of the headers already
present when the handler ran), body bytes, and whether the terminal handler
was invoked. -/
structure H5Response where
  status : Nat
  headers : List (String × String)
  body : List Nat
  delegated : Bool
deriving DecidableEq

/-- Embeds the per-request function of `HTML5ModeHandler` (handlers.go).
`respHeaders` is the response-header state already written by enclosing
wrappers (read back through `w.Header().Get("Vary")`); `terminal` is the body
the delegated terminal handler would write for the request. -/
def serveH5 {ε : Type} (st : H5State) (getAsset : String → Except ε (List Nat))
    (version : String) (terminal : Request → List Nat)
    (respHeaders : List (String × String)) (r : Request) : H5Response :=
  let urlPath := stripSlash r.path
  let fb : Option String :=
    match getAsset urlPath with
    | .ok _ => none
    | .error _ => findMatch st.subcontexts urlPath
  match fb with
  | some sub =>
    { status := 200
      headers := respHeaders ++ [("Cache-Control", "no-cache, no-store")]
      body := lookupData st.subcontextData sub
      delegated := false }
  | none =>
    let vary := headerGet respHeaders "Vary"
    let varyHeaders := if vary = "" then [] else varySplit vary
    let etag := generateEtag r version varyHeaders
    if headerGet r.header "If-None-Match" = etag then
      { status := 304, headers := respHeaders, body := [], delegated := false }
    else
      { status := 200
        headers := respHeaders ++
          [("Cache-Control", "public, max-age=0, must-revalidate"), ("ETag", etag)]
        body := terminal r
        delegated := true }

theorem listIsPfx_nil {α : Type} [BEq α] (l : List α) : listIsPfx [] l = true := by
  cases l <;> rfl

theorem matchSub_empty (p : String) : matchSub p "" = true := by
  simp [matchSub, strHasPfx, listIsPfx_nil]

theorem findMatch_mem {l : List String} {p m : String} (h : findMatch l p = some m) :
    m ∈ l ∧ matchSub p m = true := by
  induction l with
  | nil => simp [findMatch] at h
  | cons a rest ih =>
    by_cases ha : matchSub p a = true
    · simp [findMatch, ha] at h
      exact ⟨by simp [h], h ▸ ha⟩
    · simp [findMatch, ha] at h
      rcases ih h with ⟨h1, h2⟩
      exact ⟨List.mem_cons_of_mem _ h1, h2⟩

theorem findMatch_isSome_of_mem {l : List String} {p s : String}
    (hmem : s ∈ l) (hs : matchSub p s = true) : ∃ m, findMatch l p = some m := by
  induction l with
  | nil => simp at hmem
  | cons a rest ih =>
    by_cases ha : matchSub p a = true
    · exact ⟨a, by simp [findMatch, ha]⟩
    · rcases List.mem_cons.mp hmem with h | h
      · exact absurd (h ▸ hs) ha
      · rcases ih h with ⟨m, hm⟩
        exact ⟨m, by simp [findMatch, ha, hm]⟩

theorem findMatch_eq_none {l : List String} {p : String}
    (h : ∀ s ∈ l, matchSub p s = false) : findMatch l p = none := by
  induction l with
  | nil => rfl
  | cons a rest ih =>
    have ha := h a (by simp)
    simp [findMatch, ha]
    exact ih (fun s hs => h s (List.mem_cons_of_mem _ hs))

theorem findMatch_longest {l : List String} {p m : String}
    (hsort : l.Sorted lenGE) (h : findMatch l p = some m) :
    ∀ s ∈ l, matchSub p s = true → s.length ≤ m.length := by
  induction l with
  | nil => simp [findMatch] at h
  | cons a rest ih =>
    rcases List.sorted_cons.mp hsort with ⟨hall, hrest⟩
    by_cases ha : matchSub p a = true
    · simp [findMatch, ha] at h
      intro s hs _
      rcases List.mem_cons.mp hs with rfl | hmem
      · exact h ▸ Nat.le_refl _
      · exact h ▸ hall s hmem
    · simp [findMatch, ha] at h
      intro s hs hms
      rcases List.mem_cons.mp hs with rfl | hmem
      · exact absurd hms ha
      · exact ih hrest h s hmem hms

theorem sortSubs_sorted (l : List String) : (sortSubs l).Sorted lenGE :=
  List.sorted_insertionSort lenGE l

theorem sortSubs_perm (l : List String) : (sortSubs l).Perm l :=
  List.perm_insertionSort lenGE l

theorem buildEntries_keys {ε : Type} {cr : String} {es ss : List String}
    {ga : String → Except ε (List Nat)} {map : List (String × String)}
    {data : List (String × List Nat)}
    (h : buildEntries cr es ss ga map = .ok data) :
    data.map (·.1) = map.map (·.1) := by
  induction map generalizing data with
  | nil => simp [buildEntries] at h; simp [← h]
  | cons p rest ih =>
    obtain ⟨sub, index⟩ := p
    cases hga : ga index with
    | error e => simp [buildEntries, hga, Bind.bind, Except.bind] at h
    | ok b =>
      cases hrest : buildEntries cr es ss ga rest with
      | error e => simp [buildEntries, hga, hrest, Bind.bind, Except.bind] at h
      | ok restData =>
        simp [buildEntries, hga, hrest, Bind.bind, Except.bind] at h
        simp [← h, ih hrest]

theorem buildEntries_error {ε : Type} {cr : String} {es ss : List String}
    {ga : String → Except ε (List Nat)} {map : List (String × String)} {e : ε}
    (h : buildEntries cr es ss ga map = .error e) :
    ∃ p ∈ map, ga p.2 = .error e := by
  induction map with
  | nil => simp [buildEntries] at h
  | cons q rest ih =>
    obtain ⟨sub, index⟩ := q
    cases hga : ga index with
    | error e' =>
      simp [buildEntries, hga, Bind.bind, Except.bind] at h
      exact ⟨(sub, index), by simp, by simp [hga, h]⟩
    | ok b =>
      cases hrest : buildEntries cr es ss ga rest with
      | error e' =>
        simp [buildEntries, hga, hrest, Bind.bind, Except.bind] at h
        rcases ih (h ▸ hrest) with ⟨p, hp, hpe⟩
        exact ⟨p, List.mem_cons_of_mem _ hp, hpe⟩
      | ok restData => simp [buildEntries, hga, hrest, Bind.bind, Except.bind] at h

theorem buildEntries_ok {ε : Type} (cr : String) (es ss : List String)
    {ga : String → Except ε (List Nat)} {map : List (String × String)}
    (h : ∀ p ∈ map, ∃ b, ga p.2 = .ok b) :
    ∃ data, buildEntries cr es ss ga map = .ok data := by
  induction map with
  | nil => exact ⟨[], rfl⟩
  | cons q rest ih =>
    obtain ⟨sub, index⟩ := q
    rcases h (sub, index) (by simp) with ⟨b, hb⟩
    rcases ih (fun p hp => h p (List.mem_cons_of_mem _ hp)) with ⟨restData, hrest⟩
    exact ⟨(sub, deriveDoc cr sub es ss b) :: restData,
      by simp [buildEntries, hb, hrest, Bind.bind, Except.bind]⟩

theorem buildEntries_ok_lookups {ε : Type} {cr : String} {es ss : List String}
    {ga : String → Except ε (List Nat)} {map : List (String × String)}
    {data : List (String × List Nat)}
    (h : buildEntries cr es ss ga map = .ok data) :
    ∀ p ∈ map, ∃ b, ga p.2 = .ok b := by
  induction map generalizing data with
  | nil => intro p hp; simp at hp
  | cons q rest ih =>
    obtain ⟨sub, index⟩ := q
    cases hga : ga index with
    | error e => simp [buildEntries, hga, Bind.bind, Except.bind] at h
    | ok b =>
      cases hrest : buildEntries cr es ss ga rest with
      | error e => simp [buildEntries, hga, hrest, Bind.bind, Except.bind] at h
      | ok restData =>
        intro p hp
        rcases List.mem_cons.mp hp with rfl | hmem
        · exact ⟨b, hga⟩
        · exact ih hrest p hmem

theorem buildH5_state {ε : Type} {cr : String} {es ss : List String}
    {ga : String → Except ε (List Nat)} {map : List (String × String)} {st : H5State}
    (h : buildH5 cr map es ss ga = .ok st) :
    buildEntries cr es ss ga map = .ok st.subcontextData ∧
      st.subcontexts = sortSubs (map.map (·.1)) := by
  cases hb : buildEntries cr es ss ga map with
  | error e => simp [buildH5, hb, Except.map] at h
  | ok data =>
    simp [buildH5, hb, Except.map] at h
    refine ⟨?_, ?_⟩ <;> rw [← h]
    simp [buildEntries_keys hb]

theorem serveH5_fb {ε : Type} {st : H5State} {ga : String → Except ε (List Nat)}
    {version : String} {terminal : Request → List Nat}
    {respHeaders : List (String × String)} {r : Request} {e : ε} {m : String}
    (hmiss : ga (stripSlash r.path) = .error e)
    (hfm : findMatch st.subcontexts (stripSlash r.path) = some m) :
    serveH5 st ga version terminal respHeaders r =
      ⟨200, respHeaders ++ [("Cache-Control", "no-cache, no-store")],
       lookupData st.subcontextData m, false⟩ := by
  unfold serveH5
  simp [hmiss, hfm]

theorem serveH5_etagStep {ε : Type} {st : H5State} {ga : String → Except ε (List Nat)}
    {version : String} {terminal : Request → List Nat}
    {respHeaders : List (String × String)} {r : Request}
    (hnofb : (∃ b, ga (stripSlash r.path) = .ok b) ∨
      findMatch st.subcontexts (stripSlash r.path) = none) :
    serveH5 st ga version terminal respHeaders r =
      (let vary := headerGet respHeaders "Vary"
       let varyHeaders := if vary = "" then [] else varySplit vary
       let etag := generateEtag r version varyHeaders
       if headerGet r.header "If-None-Match" = etag then
         ⟨304, respHeaders, [], false⟩
       else
         ⟨200, respHeaders ++
            [("Cache-Control", "public, max-age=0, must-revalidate"), ("ETag", etag)],
          terminal r, true⟩) := by
  rcases hnofb with ⟨b, hb⟩ | hnone
  · unfold serveH5
    simp [hb]
  · unfold serveH5
    cases hga : ga (stripSlash r.path) <;> simp [hga, hnone]

end Assets

open Assets

/-- C1: `generateEtag` returns `W/"<version>_<hex>"` where the hex payload is the
lowercase hex encoding of the concatenation of the request's values for the named
vary headers in list order; with version "1234" and an empty vary list the result
is `W/"1234_"`, and with vary list ["Foo"] and header Foo: 123 it is
`W/"1234_313233"`. -/
theorem C1_generateEtag :
    (∀ (r : Request) (version : String) (varyHeaders : List String),
      generateEtag r version varyHeaders =
        "W/\"" ++ version ++ "_" ++
          hexEncode (strBytes (String.join (varyHeaders.map (headerGet r.header)))) ++ "\"")
    ∧ generateEtag ⟨"", []⟩ "1234" [] = "W/\"1234_\""
    ∧ generateEtag ⟨"", [("Foo", "123")]⟩ "1234" ["Foo"] = "W/\"1234_313233\"" := by
  refine ⟨fun r version varyHeaders => ?_, by decide, by decide⟩
  unfold generateEtag
  rw [String.join, List.foldl_map]

namespace Assets

theorem string_length_zero {s : String} (h : s.length = 0) : s = "" := by
  cases s with
  | mk data =>
    cases data with
    | nil => rfl
    | cons c cs => simp [String.length] at h

/-- Fixture asset store used by the concrete witnesses. -/
def gaW : String → Except String (List Nat) := fun p =>
  if p = "index.html" then .ok (strBytes "<html><head></head><body></body></html>")
  else if p = "java/index.html" then .ok (strBytes "<html></html>")
  else .error "not found"

/-- Fixture subcontext map used by the concrete witnesses (the production map
of buildAssetHandler). -/
def mapW : List (String × String) := [("", "index.html"), ("java", "java/index.html")]

/-- Fixture handler state: result of constructing the HTML5-mode handler over
`mapW` and `gaW`. -/
def stW : H5State :=
  match buildH5 "/console/" mapW [] [] gaW with
  | .ok st => st
  | .error _ => ⟨[], []⟩

end Assets

/-- C2: a request whose bare path is absent from the asset store and equals a
configured subcontext key or extends it across a `/` boundary is answered with
`Cache-Control: no-cache, no-store` and the (longest-match) matching
subcontext's derived index buffer as the full body, with no ETag header and no
delegation to the terminal handler. -/
theorem C2_fallbackServesDerivedIndex {ε : Type} (cr version : String)
    (map : List (String × String)) (es ss : List String)
    (ga : String → Except ε (List Nat)) (terminal : Request → List Nat)
    (respHeaders : List (String × String)) (st : H5State) (r : Request) (e : ε) (sub : String)
    (hok : buildH5 cr map es ss ga = .ok st)
    (hmiss : ga (stripSlash r.path) = .error e)
    (hmem : sub ∈ map.map (·.1))
    (hcond : stripSlash r.path = sub ∨ strHasPfx (stripSlash r.path) (sub ++ "/") = true) :
    ∃ m, m ∈ map.map (·.1) ∧
      (stripSlash r.path = m ∨ strHasPfx (stripSlash r.path) (m ++ "/") = true) ∧
      serveH5 st ga version terminal respHeaders r =
        ⟨200, respHeaders ++ [("Cache-Control", "no-cache, no-store")],
         lookupData st.subcontextData m, false⟩ := by
  obtain ⟨hdata, hsubs⟩ := buildH5_state hok
  have hperm : st.subcontexts.Perm (map.map (·.1)) := hsubs ▸ sortSubs_perm _
  have hsorted : st.subcontexts.Sorted lenGE := hsubs ▸ sortSubs_sorted _
  have hmatch : matchSub (stripSlash r.path) sub = true := by
    by_cases hsub : sub = ""
    · subst hsub; exact matchSub_empty _
    · unfold matchSub
      rw [if_pos hsub]
      rcases hcond with h | h
      · simp [h]
      · simp [h]
  have hsubmem : sub ∈ st.subcontexts := hperm.mem_iff.mpr hmem
  obtain ⟨m, hm⟩ := findMatch_isSome_of_mem hsubmem hmatch
  obtain ⟨hmmem, hmmatch⟩ := findMatch_mem hm
  refine ⟨m, hperm.mem_iff.mp hmmem, ?_, serveH5_fb hmiss hm⟩
  by_cases hm0 : m = ""
  · have hlen := findMatch_longest hsorted hm sub hsubmem hmatch
    rw [hm0] at hlen
    have hsub0 : sub = "" := string_length_zero (Nat.le_zero.mp hlen)
    rw [hm0, ← hsub0]
    exact hcond
  · unfold matchSub at hmmatch
    rw [if_pos hm0] at hmmatch
    rcases Bool.or_eq_true_iff.mp hmmatch with h | h
    · exact Or.inl (by simpa using h)
    · exact Or.inr h

/-- C2 witness: with the production subcontext map, a request for the missing
path `java/foo` is served the `java` subcontext's derived index buffer with
`Cache-Control: no-cache, no-store`, no ETag, no delegation. -/
theorem C2_fallbackServesDerivedIndex_witness :
    ∃ m, m ∈ mapW.map (·.1) ∧
      (stripSlash "/java/foo" = m ∨ strHasPfx (stripSlash "/java/foo") (m ++ "/") = true) ∧
      serveH5 stW gaW "1234" (fun _ => []) [] ⟨"/java/foo", []⟩ =
        ⟨200, [("Cache-Control", "no-cache, no-store")],
         lookupData stW.subcontextData m, false⟩ :=
  C2_fallbackServesDerivedIndex "/console/" "1234" mapW [] [] gaW (fun _ => []) []
    stW ⟨"/java/foo", []⟩ "not found" "java" (by rfl) (by rfl) (by decide)
    (Or.inr (by decide))

/-- C3: a request that reaches the ETag step (its bare path is in the asset
store, or no subcontext matches it): if `If-None-Match` equals the computed
ETag, the response is 304 with empty body and no delegation; otherwise the
handler writes `Cache-Control: public, max-age=0, must-revalidate` and the
ETag header and delegates to the terminal handler with status 200 and full
body. -/
theorem C3_etagStep {ε : Type} (st : H5State) (ga : String → Except ε (List Nat))
    (version : String) (terminal : Request → List Nat)
    (respHeaders : List (String × String)) (r : Request)
    (hreach : (∃ b, ga (stripSlash r.path) = .ok b) ∨
      (∀ s ∈ st.subcontexts, matchSub (stripSlash r.path) s = false)) :
    (headerGet r.header "If-None-Match" =
        generateEtag r version
          (if headerGet respHeaders "Vary" = "" then []
           else varySplit (headerGet respHeaders "Vary")) →
      serveH5 st ga version terminal respHeaders r = ⟨304, respHeaders, [], false⟩)
    ∧ (headerGet r.header "If-None-Match" ≠
        generateEtag r version
          (if headerGet respHeaders "Vary" = "" then []
           else varySplit (headerGet respHeaders "Vary")) →
      serveH5 st ga version terminal respHeaders r =
        ⟨200, respHeaders ++
           [("Cache-Control", "public, max-age=0, must-revalidate"),
            ("ETag", generateEtag r version
              (if headerGet respHeaders "Vary" = "" then []
               else varySplit (headerGet respHeaders "Vary")))],
         terminal r, true⟩) := by
  have hnofb : (∃ b, ga (stripSlash r.path) = .ok b) ∨
      findMatch st.subcontexts (stripSlash r.path) = none := by
    rcases hreach with h | h
    · exact Or.inl h
    · exact Or.inr (findMatch_eq_none h)
  rw [serveH5_etagStep hnofb]
  constructor
  · intro heq
    rw [if_pos heq]
  · intro hne
    rw [if_neg hne]

/-- C3 witness: for the stored asset `index.html`, a matching `If-None-Match`
yields 304 with empty body and no delegation. -/
theorem C3_etagStep_witness :
    serveH5 stW gaW "1234" (fun _ => [1]) []
        ⟨"/index.html", [("If-None-Match", "W/\"1234_\"")]⟩ =
      ⟨304, [], [], false⟩ :=
  (C3_etagStep stW gaW "1234" (fun _ => [1]) []
      ⟨"/index.html", [("If-None-Match", "W/\"1234_\"")]⟩
      (Or.inl ⟨strBytes "<html><head></head><body></body></html>", by rfl⟩)).1
    (by decide)

/-- C9: the HTML5-mode constructor fails exactly when some subcontext's index
document fails to resolve: any returned error is one of the lookup errors, a
failing lookup prevents construction, and if every lookup succeeds a handler
state is returned. -/
theorem C9_constructionErrors {ε : Type} (cr : String) (map : List (String × String))
    (es ss : List String) (ga : String → Except ε (List Nat)) :
    (∀ e, buildH5 cr map es ss ga = .error e → ∃ p ∈ map, ga p.2 = .error e)
    ∧ ((∃ p ∈ map, ∀ b, ga p.2 ≠ .ok b) → ∀ st, buildH5 cr map es ss ga ≠ .ok st)
    ∧ ((∀ p ∈ map, ∃ b, ga p.2 = .ok b) → ∃ st, buildH5 cr map es ss ga = .ok st) := by
  refine ⟨?_, ?_, ?_⟩
  · intro e h
    cases hb : buildEntries cr es ss ga map with
    | error e' =>
      have : e' = e := by simp [buildH5, hb, Except.map] at h; exact h
      exact this ▸ buildEntries_error hb
    | ok data => simp [buildH5, hb, Except.map] at h
  · intro ⟨p, hp, hpe⟩ st hok
    obtain ⟨hdata, _⟩ := buildH5_state hok
    rcases buildEntries_ok_lookups hdata p hp with ⟨b, hb⟩
    exact hpe b hb
  · intro h
    rcases buildEntries_ok cr es ss h with ⟨data, hdata⟩
    exact ⟨⟨data, sortSubs (data.map (·.1))⟩, by simp [buildH5, hdata, Except.map]⟩

/-- C9 witness: over the fixture store, the production map constructs a
handler state, while a map whose index document is missing cannot be
constructed. -/
theorem C9_constructionErrors_witness :
    (∃ st, buildH5 "/console/" mapW [] [] gaW = .ok st)
    ∧ (∀ st, buildH5 "/console/" [("", "missing.html")] [] [] gaW ≠ .ok st) := by
  constructor
  · refine (C9_constructionErrors "/console/" mapW [] [] gaW).2.2 ?_
    intro p hp
    rcases List.mem_cons.mp hp with rfl | hp
    · exact ⟨_, rfl⟩
    · rcases List.mem_cons.mp hp with rfl | hp
      · exact ⟨_, rfl⟩
      · simp at hp
  · refine (C9_constructionErrors "/console/" [("", "missing.html")] [] [] gaW).2.1 ?_
    refine ⟨("", "missing.html"), by simp, ?_⟩
    intro b h
    rw [show gaW "missing.html" = .error "not found" from rfl] at h
    exact Except.noConfusion h

/-- C10: when the subcontext map contains the empty key, every request whose
bare path is absent from the asset store is served a derived index document by
the fallback loop (the empty key matches every path), so the handler delegates
to the terminal handler or answers 304 only for paths present in the store. -/
theorem C10_rootCatchesAll {ε : Type} (cr version idx0 : String)
    (map : List (String × String)) (es ss : List String)
    (ga : String → Except ε (List Nat)) (terminal : Request → List Nat)
    (respHeaders : List (String × String)) (st : H5State) (r : Request)
    (hmem : ("", idx0) ∈ map)
    (hok : buildH5 cr map es ss ga = .ok st) :
    (∀ e, ga (stripSlash r.path) = .error e →
      ∃ m, serveH5 st ga version terminal respHeaders r =
        ⟨200, respHeaders ++ [("Cache-Control", "no-cache, no-store")],
         lookupData st.subcontextData m, false⟩)
    ∧ ((serveH5 st ga version terminal respHeaders r).delegated = true ∨
        (serveH5 st ga version terminal respHeaders r).status = 304 →
      ∃ b, ga (stripSlash r.path) = .ok b) := by
  obtain ⟨hdata, hsubs⟩ := buildH5_state hok
  have hperm : st.subcontexts.Perm (map.map (·.1)) := hsubs ▸ sortSubs_perm _
  have hroot : "" ∈ st.subcontexts :=
    hperm.mem_iff.mpr (List.mem_map.mpr ⟨("", idx0), hmem, rfl⟩)
  have hfb : ∀ e, ga (stripSlash r.path) = .error e →
      ∃ m, serveH5 st ga version terminal respHeaders r =
        ⟨200, respHeaders ++ [("Cache-Control", "no-cache, no-store")],
         lookupData st.subcontextData m, false⟩ := by
    intro e hmiss
    obtain ⟨m, hm⟩ := findMatch_isSome_of_mem hroot (matchSub_empty _)
    exact ⟨m, serveH5_fb hmiss hm⟩
  refine ⟨hfb, ?_⟩
  intro hdel
  cases hga : ga (stripSlash r.path) with
  | ok b => exact ⟨b, rfl⟩
  | error e =>
    obtain ⟨m, hm⟩ := hfb e hga
    rw [hm] at hdel
    rcases hdel with h | h <;> simp at h

/-- C10 witness: with the production map (which has the empty key), a request
for a missing path is served a derived index document. -/
theorem C10_rootCatchesAll_witness :
    ∃ m, serveH5 stW gaW "1234" (fun _ => []) [] ⟨"/projects/my-project", []⟩ =
      ⟨200, [("Cache-Control", "no-cache, no-store")],
       lookupData stW.subcontextData m, false⟩ :=
  (C10_rootCatchesAll "/console/" "1234" "index.html" mapW [] [] gaW (fun _ => [])
      [] stW ⟨"/projects/my-project", []⟩ (by decide) (by rfl)).1 "not found" (by rfl)

namespace Assets

theorem sortSubs_pair_lt {s1 s2 : String} (h : s1.length < s2.length) :
    sortSubs [s1, s2] = [s2, s1] ∧ sortSubs [s2, s1] = [s2, s1] := by
  have h1 : ¬ lenGE s1 s2 := Nat.not_le.mpr h
  have h2 : lenGE s2 s1 := Nat.le_of_lt h
  constructor <;> simp [sortSubs, List.insertionSort, List.orderedInsert, h1, h2]

end Assets

/-- C6: for two configured subcontexts where one key is a proper prefix of the
other, a request path that is a segment-bounded match for the longer key (and
absent from the asset store) is always served the longer key's derived index
document, because the subcontext list is iterated in decreasing key-length
order. -/
theorem C6_longerSubcontextWins {ε : Type} (cr version : String)
    (s1 s2 t i1 i2 : String) (raw2 : List Nat) (es ss : List String)
    (ga : String → Except ε (List Nat)) (terminal : Request → List Nat)
    (respHeaders : List (String × String)) (st : H5State) (r : Request) (e : ε)
    (hpp : s2 = s1 ++ t) (ht : t ≠ "")
    (hmap : buildH5 cr [(s1, i1), (s2, i2)] es ss ga = .ok st ∨
            buildH5 cr [(s2, i2), (s1, i1)] es ss ga = .ok st)
    (hraw2 : ga i2 = .ok raw2)
    (hmiss : ga (stripSlash r.path) = .error e)
    (hcond : stripSlash r.path = s2 ∨ strHasPfx (stripSlash r.path) (s2 ++ "/") = true) :
    serveH5 st ga version terminal respHeaders r =
      ⟨200, respHeaders ++ [("Cache-Control", "no-cache, no-store")],
       deriveDoc cr s2 es ss raw2, false⟩ := by
  have htlen : 0 < t.length := Nat.pos_of_ne_zero (fun h0 => ht (string_length_zero h0))
  have hlen : s1.length < s2.length := by
    rw [hpp, String.length_append]; omega
  have hs2ne : s2 ≠ "" := by
    intro h; rw [h] at hlen; exact Nat.not_lt_zero _ hlen
  have hne : s1 ≠ s2 := by
    intro h; rw [h] at hlen; exact Nat.lt_irrefl _ hlen
  have hmatch2 : matchSub (stripSlash r.path) s2 = true := by
    unfold matchSub
    rw [if_pos hs2ne]
    rcases hcond with h | h
    · simp [h]
    · simp [h]
  obtain ⟨hpairA, hpairB⟩ := sortSubs_pair_lt hlen
  rcases hmap with hok | hok
  · obtain ⟨hdata, hsubs⟩ := buildH5_state hok
    cases hga1 : ga i1 with
    | error e1 => simp [buildEntries, hga1, Bind.bind, Except.bind] at hdata
    | ok b1 =>
      simp [buildEntries, hga1, hraw2, Bind.bind, Except.bind] at hdata
      have hfm : findMatch st.subcontexts (stripSlash r.path) = some s2 := by
        rw [hsubs]
        simp only [List.map]
        rw [hpairA]
        simp [findMatch, hmatch2]
      rw [serveH5_fb hmiss hfm]
      have hbody : lookupData st.subcontextData s2 = deriveDoc cr s2 es ss raw2 := by
        rw [← hdata]; simp [lookupData, hne]
      rw [hbody]
  · obtain ⟨hdata, hsubs⟩ := buildH5_state hok
    cases hga1 : ga i1 with
    | error e1 => simp [buildEntries, hga1, hraw2, Bind.bind, Except.bind] at hdata
    | ok b1 =>
      simp [buildEntries, hga1, hraw2, Bind.bind, Except.bind] at hdata
      have hfm : findMatch st.subcontexts (stripSlash r.path) = some s2 := by
        rw [hsubs]
        simp only [List.map]
        rw [hpairB]
        simp [findMatch, hmatch2]
      rw [serveH5_fb hmiss hfm]
      have hbody : lookupData st.subcontextData s2 = deriveDoc cr s2 es ss raw2 := by
        rw [← hdata]; simp [lookupData]
      rw [hbody]

/-- C6 witness: with the production map (keys "" and "java", the former a
proper prefix of the latter), the missing path `java/foo` resolves to the
`java` subcontext's derived index document. -/
theorem C6_longerSubcontextWins_witness :
    serveH5 stW gaW "1234" (fun _ => []) [] ⟨"/java/foo", []⟩ =
      ⟨200, [("Cache-Control", "no-cache, no-store")],
       deriveDoc "/console/" "java" [] [] (strBytes "<html></html>"), false⟩ :=
  C6_longerSubcontextWins "/console/" "1234" "" "java" "java" "index.html"
    "java/index.html" (strBytes "<html></html>") [] [] gaW (fun _ => []) []
    stW ⟨"/java/foo", []⟩ "not found" (by rfl) (by decide) (Or.inl (by rfl))
    (by rfl) (by rfl) (Or.inr (by decide))

namespace Assets

theorem empty_length : ("" : String).length = 0 := rfl

theorem listIsPfx_append_self {α : Type} [BEq α] [LawfulBEq α] (l t : List α) :
    listIsPfx l (l ++ t) = true := by
  induction l with
  | nil => exact listIsPfx_nil _
  | cons a as ih => simp [listIsPfx, ih]

/-- `bytes.Replace(_, pat, rep, 1)` at a marked occurrence: if `pat` does not
occur starting anywhere inside `pre`, the first occurrence is the marked one
and exactly it is replaced. -/
theorem replace1_at {pat rep pre post : List Nat}
    (hno : ∀ i < pre.length, listIsPfx pat ((pre ++ (pat ++ post)).drop i) = false) :
    replace1 pat rep (pre ++ (pat ++ post)) = pre ++ (rep ++ post) := by
  induction pre with
  | nil =>
    simp only [List.nil_append]
    cases hl : pat ++ post with
    | nil =>
      rcases List.append_eq_nil.mp hl with ⟨hpat, hpost⟩
      subst hpat; subst hpost
      simp [replace1, listIsPfx]
    | cons c rest =>
      have htrue : listIsPfx pat (pat ++ post) = true := listIsPfx_append_self pat post
      rw [hl] at htrue
      simp only [replace1, htrue, if_true]
      rw [← hl, List.drop_left]
  | cons c pre' ih =>
    have h0 : listIsPfx pat (c :: (pre' ++ (pat ++ post))) = false := by
      have h' := hno 0 (by simp)
      simpa using h'
    simp only [List.cons_append]
    simp only [replace1]
    rw [if_neg (by simp [h0])]
    congr 1
    exact ih (fun i hi => by
      have h' := hno (i + 1) (by simpa using Nat.succ_lt_succ hi)
      simpa using h')

end Assets

/-- C7: extension script tags (one per URL, input order, HTML-escaped) are
inserted immediately before the closing `</body>` and stylesheet link tags
immediately before the closing `</head>` of the derived index document, if and
only if the subcontext key is empty: a non-root subcontext's derived document
is identical to one built with no extensions at all. -/
theorem C7_extensionInjection :
    (∀ (cr sub : String) (es ss : List String) (raw : List Nat), sub ≠ "" →
      deriveDoc cr sub es ss raw = deriveDoc cr sub [] [] raw)
    ∧ (∀ (cr : String) (es ss : List String) (raw : List Nat), es ≠ [] → ss ≠ [] →
      deriveDoc cr "" es ss raw =
        addExtensionStylesheets (addExtensionScripts (deriveDoc cr "" [] [] raw) es) ss)
    ∧ (∀ (pre post : List Nat) (es : List String),
      (∀ i < pre.length,
        listIsPfx (strBytes "</body>") ((pre ++ (strBytes "</body>" ++ post)).drop i) = false) →
      addExtensionScripts (pre ++ (strBytes "</body>" ++ post)) es =
        pre ++ strBytes (String.join (es.map scriptTag)) ++ strBytes "</body>" ++ post)
    ∧ (∀ (pre post : List Nat) (ss : List String),
      (∀ i < pre.length,
        listIsPfx (strBytes "</head>") ((pre ++ (strBytes "</head>" ++ post)).drop i) = false) →
      addExtensionStylesheets (pre ++ (strBytes "</head>" ++ post)) ss =
        pre ++ strBytes (String.join (ss.map styleTag)) ++ strBytes "</head>" ++ post) := by
  refine ⟨?_, ?_, ?_, ?_⟩
  · intro cr sub es ss raw hsub
    have h0 : ¬ sub.length = 0 := fun h => hsub (string_length_zero h)
    simp [deriveDoc, h0]
  · intro cr es ss raw hes hss
    have he : es.length > 0 := List.length_pos.mpr hes
    have hs : ss.length > 0 := List.length_pos.mpr hss
    simp [deriveDoc, he, hs, empty_length]
  · intro pre post es hno
    unfold addExtensionScripts
    rw [replace1_at hno]
    simp [List.append_assoc]
  · intro pre post ss hno
    unfold addExtensionStylesheets
    rw [replace1_at hno]
    simp [List.append_assoc]

/-- C7 witness: a non-root subcontext's derived document ignores the extension
lists; injected script tags land immediately before `</body>` in input order. -/
theorem C7_extensionInjection_witness :
    (deriveDoc "/console/" "java" ["https://x/a.js"] ["https://x/b.css"]
        (strBytes "<html><head></head><body></body></html>") =
      deriveDoc "/console/" "java" [] []
        (strBytes "<html><head></head><body></body></html>"))
    ∧ addExtensionScripts (strBytes "<body>" ++ (strBytes "</body>" ++ strBytes "</html>"))
        ["https://x/a.js", "https://x/b.js"] =
      strBytes "<body>" ++
        strBytes (String.join (["https://x/a.js", "https://x/b.js"].map scriptTag)) ++
        strBytes "</body>" ++ strBytes "</html>" :=
  ⟨C7_extensionInjection.1 "/console/" "java" ["https://x/a.js"] ["https://x/b.css"]
      (strBytes "<html><head></head><body></body></html>") (by decide),
   C7_extensionInjection.2.2.1 (strBytes "<body>") (strBytes "</html>")
      ["https://x/a.js", "https://x/b.js"] (by decide)⟩

namespace Assets

/-- The gzip eligibility test of `GzipHandler`:
`strings.Contains(r.Header.Get("Accept-Encoding"), "gzip")`. -/
def acceptsGzip (r : Request) : Bool :=
  strContains (headerGet r.header "Accept-Encoding") "gzip"

/-- Request transformation of `GzipHandler`: when the client accepts gzip,
the request's Accept-Encoding header is normalized to the literal `gzip`
before the wrapped handler runs. -/
def gzipRequest (r : Request) : Request :=
  if acceptsGzip r then { r with header := setHeader r.header "Accept-Encoding" "gzip" }
  else r

/-- Response-header state written by `GzipHandler` before the wrapped handler
runs: `Vary: Accept-Encoding` always, plus `Content-Encoding: gzip` when
compressing. -/
def gzipRespHeaders (initial : List (String × String)) (r : Request) :
    List (String × String) :=
  let h := initial ++ [("Vary", "Accept-Encoding")]
  if acceptsGzip r then h ++ [("Content-Encoding", "gzip")] else h

/-- `SecurityHeadersHandler` (handlers.go): five fixed headers, written with
`Set`. -/
def securityHeaders (h : List (String × String)) : List (String × String) :=
  setHeader (setHeader (setHeader (setHeader (setHeader h
    "X-Content-Type-Options" "nosniff")
    "X-XSS-Protection" "1; mode=block")
    "X-Frame-Options" "DENY")
    "X-DNS-Prefetch-Control" "off")
    "Referrer-Policy" "strict-origin-when-cross-origin"

/-- The asset pipeline of `buildAssetHandler` (asset_apiserver.go):
`GzipHandler(SecurityHeadersHandler(HTML5ModeHandler(...)))`, restricted to
its request/response-header transformations (the byte-level compression of
the response body is not modelled; it does not feed back into headers). -/
def assetPipeline {ε : Type} (st : H5State) (ga : String → Except ε (List Nat))
    (version : String) (terminal : Request → List Nat) (r : Request) : H5Response :=
  serveH5 st ga version terminal (securityHeaders (gzipRespHeaders [] r)) (gzipRequest r)

theorem headerGet_setHeader (h : List (String × String)) (k v : String) :
    headerGet (setHeader h k v) k = v := by
  simp [setHeader, headerGet]

theorem setHeader_setHeader (h : List (String × String)) (k v w : String) :
    setHeader (setHeader h k v) k w = setHeader h k w := by
  unfold setHeader
  simp [List.filter_filter]

end Assets

/-- C8: two requests whose Accept-Encoding values both contain the token
"gzip" but otherwise differ are handed to the wrapped handler with the
identical Accept-Encoding value, the literal string "gzip", so downstream
cache-key computations such as the HTML5-mode ETag agree on both. -/
theorem C8_gzipNormalization (r : Request) (v1 v2 : String)
    (h1 : strContains v1 "gzip" = true) (h2 : strContains v2 "gzip" = true) :
    gzipRequest { r with header := setHeader r.header "Accept-Encoding" v1 } =
      gzipRequest { r with header := setHeader r.header "Accept-Encoding" v2 }
    ∧ headerGet (gzipRequest
        { r with header := setHeader r.header "Accept-Encoding" v1 }).header
        "Accept-Encoding" = "gzip"
    ∧ ∀ (version : String) (varyHeaders : List String),
        generateEtag (gzipRequest { r with header := setHeader r.header "Accept-Encoding" v1 })
            version varyHeaders =
          generateEtag (gzipRequest { r with header := setHeader r.header "Accept-Encoding" v2 })
            version varyHeaders := by
  have ha1 : acceptsGzip { r with header := setHeader r.header "Accept-Encoding" v1 } = true := by
    simp [acceptsGzip, headerGet_setHeader, h1]
  have ha2 : acceptsGzip { r with header := setHeader r.header "Accept-Encoding" v2 } = true := by
    simp [acceptsGzip, headerGet_setHeader, h2]
  have heq : gzipRequest { r with header := setHeader r.header "Accept-Encoding" v1 } =
      gzipRequest { r with header := setHeader r.header "Accept-Encoding" v2 } := by
    simp [gzipRequest, ha1, ha2, setHeader_setHeader]
  refine ⟨heq, ?_, fun version varyHeaders => by rw [heq]⟩
  simp [gzipRequest, ha1, setHeader_setHeader, headerGet_setHeader]

/-- C8 witness: two concrete gzip-accepting requests with different quality
values are normalized to the same request, whose Accept-Encoding reads
exactly "gzip", and their ETags agree. -/
theorem C8_gzipNormalization_witness :
    gzipRequest ⟨"/a", setHeader [] "Accept-Encoding" "gzip, deflate"⟩ =
      gzipRequest ⟨"/a", setHeader [] "Accept-Encoding" "br;q=0.8, gzip;q=1.0"⟩
    ∧ headerGet (gzipRequest ⟨"/a", setHeader [] "Accept-Encoding" "gzip, deflate"⟩).header
        "Accept-Encoding" = "gzip"
    ∧ generateEtag (gzipRequest ⟨"/a", setHeader [] "Accept-Encoding" "gzip, deflate"⟩)
        "1234" ["Accept-Encoding"] =
      generateEtag (gzipRequest ⟨"/a", setHeader [] "Accept-Encoding" "br;q=0.8, gzip;q=1.0"⟩)
        "1234" ["Accept-Encoding"] := by
  obtain ⟨ha, hb, hc⟩ := C8_gzipNormalization ⟨"/a", []⟩ "gzip, deflate" "br;q=0.8, gzip;q=1.0"
    (by decide) (by decide)
  exact ⟨ha, hb, hc "1234" ["Accept-Encoding"]⟩

namespace Assets

theorem utf8Bytes_lt256 (c : Char) : ∀ b ∈ utf8Bytes c, b < 256 := by
  have hc : c.toNat < 1114112 := by
    rcases c.valid with h | ⟨h1, h2⟩
    · exact Nat.lt_trans h (by norm_num)
    · exact h2
  unfold utf8Bytes
  by_cases h1 : c.toNat < 128
  · simp [h1]; omega
  · rw [if_neg h1]
    by_cases h2 : c.toNat < 2048
    · have hd : c.toNat / 64 < 32 := Nat.div_lt_of_lt_mul (by omega)
      have hm : c.toNat % 64 < 64 := Nat.mod_lt _ (by omega)
      simp [h2]; omega
    · rw [if_neg h2]
      by_cases h3 : c.toNat < 65536
      · have hd : c.toNat / 4096 < 16 := Nat.div_lt_of_lt_mul (by omega)
        have hm1 : (c.toNat / 64) % 64 < 64 := Nat.mod_lt _ (by omega)
        have hm2 : c.toNat % 64 < 64 := Nat.mod_lt _ (by omega)
        simp [h3]; omega
      · have hd : c.toNat / 262144 < 5 := Nat.div_lt_of_lt_mul (by omega)
        have hm1 : (c.toNat / 4096) % 64 < 64 := Nat.mod_lt _ (by omega)
        have hm2 : (c.toNat / 64) % 64 < 64 := Nat.mod_lt _ (by omega)
        have hm3 : c.toNat % 64 < 64 := Nat.mod_lt _ (by omega)
        simp [h3]; omega

theorem strBytes_lt256 (s : String) : ∀ b ∈ strBytes s, b < 256 := by
  unfold strBytes
  induction s.data with
  | nil => simp [utf8Chars]
  | cons c cs ih =>
    intro b hb
    unfold utf8Chars at hb
    rcases List.mem_append.mp hb with h | h
    · exact utf8Bytes_lt256 c b h
    · exact ih b h

theorem utf8Bytes_ne_nil (c : Char) : utf8Bytes c ≠ [] := by
  unfold utf8Bytes
  by_cases h1 : c.toNat < 128
  · simp [h1]
  · by_cases h2 : c.toNat < 2048
    · simp [h1, h2]
    · by_cases h3 : c.toNat < 65536
      · simp [h1, h2, h3]
      · simp [h1, h2, h3]

theorem utf8Chars_head_ascii {l : List Char} {b : Nat} {rest : List Nat}
    (hb : b < 128) (h : utf8Chars l = b :: rest) :
    ∃ c cs, l = c :: cs ∧ c.toNat = b ∧ utf8Chars cs = rest := by
  cases l with
  | nil => simp [utf8Chars] at h
  | cons c cs =>
    unfold utf8Chars at h
    unfold utf8Bytes at h
    by_cases h1 : c.toNat < 128
    · rw [if_pos h1] at h
      simp only [List.cons_append, List.nil_append, List.cons.injEq] at h
      exact ⟨c, cs, rfl, h.1, h.2⟩
    · exfalso
      rw [if_neg h1] at h
      by_cases h2 : c.toNat < 2048
      · rw [if_pos h2] at h
        simp only [List.cons_append, List.cons.injEq] at h
        omega
      · rw [if_neg h2] at h
        by_cases h3 : c.toNat < 65536
        · rw [if_pos h3] at h
          simp only [List.cons_append, List.cons.injEq] at h
          omega
        · rw [if_neg h3] at h
          simp only [List.cons_append, List.cons.injEq] at h
          omega

theorem utf8Chars_eq_nil {l : List Char} (h : utf8Chars l = []) : l = [] := by
  cases l with
  | nil => rfl
  | cons c cs =>
    unfold utf8Chars at h
    exact absurd (List.append_eq_nil.mp h).1 (utf8Bytes_ne_nil c)

theorem strBytes_gzip_inj {s : String} (h : strBytes s = strBytes "gzip") : s = "gzip" := by
  have hgz : strBytes "gzip" = [103, 122, 105, 112] := by decide
  rw [hgz] at h
  unfold strBytes at h
  obtain ⟨c1, cs1, hl1, hc1, h1⟩ := utf8Chars_head_ascii (by omega) h
  obtain ⟨c2, cs2, hl2, hc2, h2⟩ := utf8Chars_head_ascii (by omega) h1
  obtain ⟨c3, cs3, hl3, hc3, h3⟩ := utf8Chars_head_ascii (by omega) h2
  obtain ⟨c4, cs4, hl4, hc4, h4⟩ := utf8Chars_head_ascii (by omega) h3
  have hnil : cs4 = [] := utf8Chars_eq_nil h4
  have e1 : c1 = 'g' := by have hx := Char.ofNat_toNat c1; rw [hc1] at hx; exact hx ▸ rfl
  have e2 : c2 = 'z' := by have hx := Char.ofNat_toNat c2; rw [hc2] at hx; exact hx ▸ rfl
  have e3 : c3 = 'i' := by have hx := Char.ofNat_toNat c3; rw [hc3] at hx; exact hx ▸ rfl
  have e4 : c4 = 'p' := by have hx := Char.ofNat_toNat c4; rw [hc4] at hx; exact hx ▸ rfl
  apply String.ext
  rw [hl1, hl2, hl3, hl4, hnil, e1, e2, e3, e4]

theorem hexDigit_inj : ∀ a < 16, ∀ b < 16, hexDigit a = hexDigit b → a = b := by decide

theorem hexChars_inj : ∀ {bs1 bs2 : List Nat}, (∀ b ∈ bs1, b < 256) → (∀ b ∈ bs2, b < 256) →
    hexChars bs1 = hexChars bs2 → bs1 = bs2 := by
  intro bs1
  induction bs1 with
  | nil =>
    intro bs2 _ _ h
    cases bs2 with
    | nil => rfl
    | cons b bs => simp [hexChars] at h
  | cons a as ih =>
    intro bs2 hb1 hb2 h
    cases bs2 with
    | nil => simp [hexChars] at h
    | cons b bs =>
      simp only [hexChars, List.cons.injEq] at h
      obtain ⟨h1, h2, h3⟩ := h
      have ha : a < 256 := hb1 a (by simp)
      have hb : b < 256 := hb2 b (by simp)
      have e1 : a / 16 = b / 16 :=
        hexDigit_inj _ (Nat.div_lt_of_lt_mul (by omega)) _ (Nat.div_lt_of_lt_mul (by omega)) h1
      have e2 : a % 16 = b % 16 :=
        hexDigit_inj _ (Nat.mod_lt _ (by omega)) _ (Nat.mod_lt _ (by omega)) h2
      have hab : a = b := by omega
      rw [hab, ih (fun x hx => hb1 x (by simp [hx])) (fun x hx => hb2 x (by simp [hx])) h3]

theorem headerGet_filter_ne (h : List (String × String)) (k k' : String) (hne : k' ≠ k) :
    headerGet (h.filter (fun p => p.1 != k)) k' = headerGet h k' := by
  induction h with
  | nil => rfl
  | cons q rest ih =>
    obtain ⟨a, v⟩ := q
    by_cases ha : a = k
    · rw [List.filter_cons_of_neg (by simp [ha])]
      rw [ih]
      have hak : ¬ a = k' := fun hh => hne (hh ▸ ha)
      simp [headerGet, hak]
    · rw [List.filter_cons_of_pos (by simp [ha])]
      by_cases hak : a = k'
      · simp [headerGet, hak]
      · simp [headerGet, hak, ih]

theorem headerGet_setHeader_ne (h : List (String × String)) (k k' v : String)
    (hne : k' ≠ k) : headerGet (setHeader h k v) k' = headerGet h k' := by
  unfold setHeader
  have hkk : ¬ k = k' := fun hh => hne hh.symm
  have hstep : headerGet ((k, v) :: h.filter (fun p => p.1 != k)) k' =
      headerGet (h.filter (fun p => p.1 != k)) k' := by
    show (if k = k' then v else headerGet (h.filter (fun p => p.1 != k)) k') = _
    rw [if_neg hkk]
  rw [hstep]
  exact headerGet_filter_ne h k k' hne

theorem generateEtag_ne_empty (r : Request) (v : String) (l : List String) :
    generateEtag r v l ≠ "" := by
  unfold generateEtag
  intro h
  have hd := congrArg String.data h
  simp [String.data_append] at hd

theorem gzipRequest_path (r : Request) : (gzipRequest r).path = r.path := by
  unfold gzipRequest
  split <;> rfl

end Assets

namespace Assets

/-- ETag step of `serveH5` when the asset exists, the response `Vary` header
reads `Accept-Encoding`, and the request carries no `If-None-Match`. -/
theorem serveH5_etag_ae {ε : Type} (st : H5State) (ga : String → Except ε (List Nat))
    (version : String) (terminal : Request → List Nat)
    (respHeaders : List (String × String)) (r : Request) {b : List Nat}
    (hok : ga (stripSlash r.path) = .ok b)
    (hvary : headerGet respHeaders "Vary" = "Accept-Encoding")
    (hinm : headerGet r.header "If-None-Match" = "") :
    serveH5 st ga version terminal respHeaders r =
      ⟨200, respHeaders ++
        [("Cache-Control", "public, max-age=0, must-revalidate"),
         ("ETag", generateEtag r version ["Accept-Encoding"])],
       terminal r, true⟩ := by
  rw [serveH5_etagStep (Or.inl ⟨b, hok⟩)]
  have hv : (if ("Accept-Encoding" : String) = "" then ([] : List String)
      else varySplit "Accept-Encoding") = ["Accept-Encoding"] := by decide
  simp only [hvary, hv, hinm]
  rw [if_neg (fun hh => generateEtag_ne_empty r version ["Accept-Encoding"] (Eq.symm hh))]

end Assets

/-- C4: under the production composition (gzip wrapping the HTML5-mode
handler), a gzip-accepting request and a non-gzip request for the same stored
asset path receive two different ETag values. -/
theorem C4_gzipEtagDiffers {ε : Type} (st : H5State) (ga : String → Except ε (List Nat))
    (version : String) (terminal : Request → List Nat) (p : String) (b : List Nat)
    (r1 r2 : Request)
    (hasset : ga (stripSlash p) = .ok b)
    (hp1 : r1.path = p) (hp2 : r2.path = p)
    (hg1 : strContains (headerGet r1.header "Accept-Encoding") "gzip" = true)
    (hg2 : strContains (headerGet r2.header "Accept-Encoding") "gzip" = false)
    (hinm1 : headerGet r1.header "If-None-Match" = "")
    (hinm2 : headerGet r2.header "If-None-Match" = "") :
    headerGet (assetPipeline st ga version terminal r1).headers "ETag" ≠
      headerGet (assetPipeline st ga version terminal r2).headers "ETag" := by
  have haccept1 : acceptsGzip r1 = true := hg1
  have haccept2 : acceptsGzip r2 = false := hg2
  have hr1 : gzipRequest r1 =
      { r1 with header := setHeader r1.header "Accept-Encoding" "gzip" } := by
    unfold gzipRequest
    rw [if_pos haccept1]
  have hr2 : gzipRequest r2 = r2 := by
    unfold gzipRequest
    rw [if_neg (by simp [haccept2])]
  have hsec1 : securityHeaders (gzipRespHeaders [] r1) =
      [("Referrer-Policy", "strict-origin-when-cross-origin"),
       ("X-DNS-Prefetch-Control", "off"), ("X-Frame-Options", "DENY"),
       ("X-XSS-Protection", "1; mode=block"), ("X-Content-Type-Options", "nosniff"),
       ("Vary", "Accept-Encoding"), ("Content-Encoding", "gzip")] := by
    have hgr : gzipRespHeaders [] r1 =
        [("Vary", "Accept-Encoding"), ("Content-Encoding", "gzip")] := by
      simp [gzipRespHeaders, haccept1]
    rw [hgr]
    decide
  have hsec2 : securityHeaders (gzipRespHeaders [] r2) =
      [("Referrer-Policy", "strict-origin-when-cross-origin"),
       ("X-DNS-Prefetch-Control", "off"), ("X-Frame-Options", "DENY"),
       ("X-XSS-Protection", "1; mode=block"), ("X-Content-Type-Options", "nosniff"),
       ("Vary", "Accept-Encoding")] := by
    have hgr : gzipRespHeaders [] r2 = [("Vary", "Accept-Encoding")] := by
      simp [gzipRespHeaders, haccept2]
    rw [hgr]
    decide
  have hinm1' : headerGet (gzipRequest r1).header "If-None-Match" = "" := by
    rw [hr1]
    exact (headerGet_setHeader_ne r1.header "Accept-Encoding" "If-None-Match" "gzip"
      (by decide)).trans hinm1
  have hinm2' : headerGet (gzipRequest r2).header "If-None-Match" = "" := by
    rw [hr2]; exact hinm2
  have hok1 : ga (stripSlash (gzipRequest r1).path) = .ok b := by
    rw [gzipRequest_path, hp1]; exact hasset
  have hok2 : ga (stripSlash (gzipRequest r2).path) = .ok b := by
    rw [gzipRequest_path, hp2]; exact hasset
  have hresp1 := serveH5_etag_ae st ga version terminal
    (securityHeaders (gzipRespHeaders [] r1)) (gzipRequest r1)
    hok1 (by rw [hsec1]; decide) hinm1'
  have hresp2 := serveH5_etag_ae st ga version terminal
    (securityHeaders (gzipRespHeaders [] r2)) (gzipRequest r2)
    hok2 (by rw [hsec2]; decide) hinm2'
  unfold assetPipeline
  rw [hresp1, hresp2]
  have hget1 : headerGet (securityHeaders (gzipRespHeaders [] r1) ++
      [("Cache-Control", "public, max-age=0, must-revalidate"),
       ("ETag", generateEtag (gzipRequest r1) version ["Accept-Encoding"])]) "ETag" =
      generateEtag (gzipRequest r1) version ["Accept-Encoding"] := by
    rw [hsec1]; simp [headerGet]
  have hget2 : headerGet (securityHeaders (gzipRespHeaders [] r2) ++
      [("Cache-Control", "public, max-age=0, must-revalidate"),
       ("ETag", generateEtag (gzipRequest r2) version ["Accept-Encoding"])]) "ETag" =
      generateEtag (gzipRequest r2) version ["Accept-Encoding"] := by
    rw [hsec2]; simp [headerGet]
  rw [hget1, hget2]
  have hae1 : headerGet (gzipRequest r1).header "Accept-Encoding" = "gzip" := by
    rw [hr1]
    exact headerGet_setHeader r1.header "Accept-Encoding" "gzip"
  have he1 : generateEtag (gzipRequest r1) version ["Accept-Encoding"] =
      "W/\"" ++ version ++ "_" ++ hexEncode (strBytes "gzip") ++ "\"" := by
    unfold generateEtag
    simp only [List.foldl_cons, List.foldl_nil, hae1]
    rfl
  have he2 : generateEtag (gzipRequest r2) version ["Accept-Encoding"] =
      "W/\"" ++ version ++ "_" ++
        hexEncode (strBytes (headerGet r2.header "Accept-Encoding")) ++ "\"" := by
    rw [hr2]
    unfold generateEtag
    simp only [List.foldl_cons, List.foldl_nil]
    rfl
  rw [he1, he2]
  intro heq
  have hd := congrArg String.data heq
  simp [String.data_append] at hd
  have hhex : hexChars (strBytes "gzip") =
      hexChars (strBytes (headerGet r2.header "Accept-Encoding")) := hd
  have hby : strBytes "gzip" = strBytes (headerGet r2.header "Accept-Encoding") :=
    hexChars_inj (strBytes_lt256 _) (strBytes_lt256 _) hhex
  have hae2 : headerGet r2.header "Accept-Encoding" = "gzip" :=
    strBytes_gzip_inj hby.symm
  rw [hae2] at hg2
  exact absurd hg2 (by decide)

/-- C4 witness: over the fixture store, a gzip request and a plain request for
the stored asset `index.html` get different ETags from the composed pipeline. -/
theorem C4_gzipEtagDiffers_witness :
    headerGet (assetPipeline stW gaW "1234" (fun _ => [])
        ⟨"/index.html", [("Accept-Encoding", "gzip, deflate")]⟩).headers "ETag" ≠
      headerGet (assetPipeline stW gaW "1234" (fun _ => [])
        ⟨"/index.html", []⟩).headers "ETag" :=
  C4_gzipEtagDiffers stW gaW "1234" (fun _ => []) "/index.html"
    (strBytes "<html><head></head><body></body></html>")
    ⟨"/index.html", [("Accept-Encoding", "gzip, deflate")]⟩ ⟨"/index.html", []⟩
    (by rfl) rfl rfl (by decide) (by decide) (by decide) (by decide)

namespace Assets

/-- `ClusterResourceOverrideConfig` (handlers.go): the optional nested
resource-override ratios. -/
structure ClusterResourceOverrideConfig where
  LimitCPUToMemoryPercent : Int
  CPURequestToLimitPercent : Int
  MemoryRequestToLimitPercent : Int
deriving DecidableEq

/-- `WebConsoleConfig` (handlers.go). The Go fields APIGroupPrefix,
MasterPrefix and KubernetesPrefix are shortened to `...Pfx` here; the nil-able
pointer field is an `Option`. -/
structure WebConsoleConfig where
  APIGroupAddr : String
  APIGroupPfx : String
  MasterAddr : String
  MasterPfx : String
  KubernetesAddr : String
  KubernetesPfx : String
  OAuthAuthorizeURI : String
  OAuthTokenURI : String
  OAuthRedirectBase : String
  OAuthClientID : String
  LogoutURI : String
  LoggingURL : String
  MetricsURL : String
  LimitRequestOverrides : Option ClusterResourceOverrideConfig
  TemplateServiceBrokerEnabled : Bool
  InactivityTimeoutMinutes : Int
  ClusterResourceOverridesEnabled : Bool
  AdminConsoleURL : String
deriving DecidableEq

structure WebConsoleVersion where
  ConsoleVersion : String
deriving DecidableEq

structure WebConsoleExtensionProperty where
  Key : String
  Value : String
deriving DecidableEq

def hexDigitU (n : Nat) : Char :=
  if n < 10 then Char.ofNat (48 + n) else Char.ofNat (55 + n)

/-- The `js` template escaper, Go `text/template.JSEscapeString` (external
library), modelled for ASCII content: backslash, quotes, `<`, `>`, `&`, `=`
and control bytes are escaped; non-ASCII printable runes pass through and the
unicode non-printable table is not modelled. -/
def jsEscapeChar (c : Char) : String :=
  if c = '\\' then "\\\\"
  else if c = '\'' then "\\'"
  else if c = '"' then "\\\""
  else if c = '<' then "\\u003C"
  else if c = '>' then "\\u003E"
  else if c = '&' then "\\u0026"
  else if c = '=' then "\\u003D"
  else if c.toNat < 32 then
    "\\u00" ++ String.singleton (hexDigitU (c.toNat / 16)) ++
      String.singleton (hexDigitU (c.toNat % 16))
  else String.singleton c

def jsEscape (s : String) : String := String.join (s.data.map jsEscapeChar)

/-- The `{{ with .LimitRequestOverrides }} ... {{ end }}` block of
`configTemplate`: emitted only when the field is present. -/
def renderOverrides (o : Option ClusterResourceOverrideConfig) : String :=
  match o with
  | none => ""
  | some c =>
    "\n  limitRequestOverrides: \x7b\n\tlimitCPUToMemoryPercent: " ++
      toString c.LimitCPUToMemoryPercent ++
      ",\n\tcpuRequestToLimitPercent: " ++ toString c.CPURequestToLimitPercent ++
      ",\n\tmemoryRequestToLimitPercent: " ++ toString c.MemoryRequestToLimitPercent ++
      "\n  \x7d,\n  "

/-- Embeds the execution of `configTemplate` (handlers.go): the template text
verbatim, with each `{{ ... | js}}` action replaced by the js-escaped field
and the one action written without the escaper — `{{ .AdminConsoleURL }}` —
replaced by the raw field. -/
def renderConfig (c : WebConsoleConfig) : String :=
  "\nwindow.OPENSHIFT_CONFIG = \x7b\n  apis: \x7b\n    hostPort: \"" ++
    jsEscape c.APIGroupAddr ++
  "\",\n    prefix: \"" ++ jsEscape c.APIGroupPfx ++
  "\"\n  \x7d,\n  api: \x7b\n    openshift: \x7b\n      hostPort: \"" ++
    jsEscape c.MasterAddr ++
  "\",\n      prefix: \"" ++ jsEscape c.MasterPfx ++
  "\"\n    \x7d,\n    k8s: \x7b\n      hostPort: \"" ++ jsEscape c.KubernetesAddr ++
  "\",\n      prefix: \"" ++ jsEscape c.KubernetesPfx ++
  "\"\n    \x7d\n  \x7d,\n  auth: \x7b\n  \toauth_authorize_uri: \"" ++
    jsEscape c.OAuthAuthorizeURI ++
  "\",\n\toauth_token_uri: \"" ++ jsEscape c.OAuthTokenURI ++
  "\",\n  \toauth_redirect_base: \"" ++ jsEscape c.OAuthRedirectBase ++
  "\",\n  \toauth_client_id: \"" ++ jsEscape c.OAuthClientID ++
  "\",\n  \tlogout_uri: \"" ++ jsEscape c.LogoutURI ++
  "\"\n  \x7d,\n  " ++ renderOverrides c.LimitRequestOverrides ++
  "\n  adminConsoleURL: \"" ++ c.AdminConsoleURL ++
  "\",\n  loggingURL: \"" ++ jsEscape c.LoggingURL ++
  "\",\n  metricsURL: \"" ++ jsEscape c.MetricsURL ++
  "\",\n  templateServiceBrokerEnabled: " ++ toString c.TemplateServiceBrokerEnabled ++
  ",\n  inactivityTimeoutMinutes: " ++ toString c.InactivityTimeoutMinutes ++
  ",\n  clusterResourceOverridesEnabled: " ++ toString c.ClusterResourceOverridesEnabled ++
  "\n\x7d;\n"

/-- Embeds the execution of `versionTemplate` (handlers.go). -/
def renderVersion (v : WebConsoleVersion) : String :=
  "\nwindow.OPENSHIFT_VERSION = \x7b\n  console: \"" ++ jsEscape v.ConsoleVersion ++
    "\"\n\x7d;\n"

/-- One item of the `{{ range }}` of `extensionPropertiesTemplate`:
a comma before every item but the first, then the js-escaped key and value. -/
def renderProperty (i : Nat) (p : WebConsoleExtensionProperty) : String :=
  (if i ≠ 0 then "," else "") ++ "\n  \"" ++ jsEscape p.Key ++ "\": \"" ++
    jsEscape p.Value ++ "\""

/-- Embeds the execution of `extensionPropertiesTemplate` (handlers.go). -/
def renderExtensionProperties (props : List WebConsoleExtensionProperty) : String :=
  "\nwindow.OPENSHIFT_EXTENSION_PROPERTIES = \x7b" ++
    String.join (props.enum.map (fun q => renderProperty q.1 q.2)) ++ "\n\x7d;\n"

/-- The buffer `GeneratedConfigHandler` renders once and serves on every
request: config, version and extension-properties documents concatenated. -/
def generatedConfig (c : WebConsoleConfig) (v : WebConsoleVersion)
    (props : List WebConsoleExtensionProperty) : String :=
  renderConfig c ++ renderVersion v ++ renderExtensionProperties props

/-- A configuration whose AdminConsoleURL carries a JavaScript-string breakout
payload. -/
def cfgBug : WebConsoleConfig :=
  { APIGroupAddr := "", APIGroupPfx := "", MasterAddr := "", MasterPfx := ""
    KubernetesAddr := "", KubernetesPfx := "", OAuthAuthorizeURI := ""
    OAuthTokenURI := "", OAuthRedirectBase := "", OAuthClientID := ""
    LogoutURI := "", LoggingURL := "", MetricsURL := ""
    LimitRequestOverrides := none, TemplateServiceBrokerEnabled := false
    InactivityTimeoutMinutes := 0, ClusterResourceOverridesEnabled := false
    AdminConsoleURL := "\";alert(1);//" }

end Assets

set_option maxRecDepth 10000 in
/-- C5 (code bug): the `adminConsoleURL` interpolation of `configTemplate`
lacks the `| js` escaper that every other string field of the document uses:
rendering a config whose AdminConsoleURL is `";alert(1);//` embeds the raw
quote into the document (breaking out of the string literal), and the
js-escaped form the claim requires is absent; the escaper itself would have
produced `\";alert(1);//`. -/
theorem C5_adminConsoleURLUnescaped :
    strContains (renderConfig cfgBug) "adminConsoleURL: \"\";alert(1);//\"" = true
    ∧ strContains (renderConfig cfgBug) "adminConsoleURL: \"\\\";alert(1);//\"" = false
    ∧ jsEscape "\";alert(1);//" = "\\\";alert(1);//" :=
  ⟨by decide, by decide, by decide⟩
